import Mathlib

/-!
Shallow embedding of the Othello environment of `othello_env.py`
(classes `Board` and `OthelloGame`).

Conventions of the embedding:
* a board cell is one of `' '` (empty), `'X'` (black), `'O'` (white),
  modelled by `Cell.E`, `Cell.X`, `Cell.O`;
* the Python board `self.board` is a list of 8 columns of 8 cells each,
  accessed as `board[x][y]`; it is modelled as a total function
  `Fin 8 → Fin 8 → Cell`;
* Python list indexing wraps indices in `[-8,-1]` and raises `IndexError`
  outside `[-8,7]`; `pyIdx`/`pyGet` model exactly this, with `none`
  standing for the raised exception, and every embedded function that can
  hit an unguarded index returns `Option`;
* in-place mutation is modelled by explicit state passing: functions that
  mutate the board return the resulting board;
* the two `while` loops of `is_valid_move` walk along a fixed direction
  and leave the 8×8 board after at most 8 steps, so they are embedded
  with a fuel of 16, which is never exhausted on the guarded calls the
  code performs.
-/

inductive Cell where
  | E : Cell
  | X : Cell
  | O : Cell
deriving DecidableEq, Repr

abbrev Board := Fin 8 → Fin 8 → Cell

instance : DecidableEq Board := fun b1 b2 =>
  decidable_of_iff
    ((((List.finRange 8).all fun i =>
      (List.finRange 8).all fun j => b1 i j == b2 i j)) = true)
    (by
      simp only [List.all_eq_true, beq_iff_eq]
      constructor
      · intro h
        funext i j
        exact h i (List.mem_finRange i) j (List.mem_finRange j)
      · intro h i _ j _
        rw [h])

/-- Python list index semantics on a list of length 8: indices in `[0,7]`
are plain, indices in `[-8,-1]` wrap around, anything else raises
(`none`). -/
def pyIdx (i : Int) : Option (Fin 8) :=
  if h : 0 ≤ i ∧ i < 8 then some ⟨i.toNat, by omega⟩
  else if h2 : -8 ≤ i ∧ i < 0 then some ⟨(i + 8).toNat, by omega⟩
  else none

/-- `self.board[x][y]` with Python indexing semantics (`none` = `IndexError`). -/
def pyGet (b : Board) (x y : Int) : Option Cell := do
  let fx ← pyIdx x
  let fy ← pyIdx y
  some (b fx fy)

/-- Write one cell of the board (total, at `Fin 8` coordinates). -/
def setCell (b : Board) (i j : Fin 8) (c : Cell) : Board :=
  fun i' j' => if i' = i ∧ j' = j then c else b i' j'

/-- `self.board[x][y] = c` at `Int` coordinates.  Every use in the source
is guarded so that `(x,y)` is on the board, hence the out-of-range branch
(returning the board unchanged) is unreachable. -/
def setCellI (b : Board) (x y : Int) (c : Cell) : Board :=
  if hx : 0 ≤ x ∧ x < 8 then
    if hy : 0 ≤ y ∧ y < 8 then
      setCell b ⟨x.toNat, by omega⟩ ⟨y.toNat, by omega⟩ c
    else b
  else b

/-- Read one cell at `Int` coordinates.  Every use in the source is
guarded by `is_on_board`, hence the default `Cell.E` of the out-of-range
branch is unreachable. -/
def cellAt (b : Board) (x y : Int) : Cell :=
  if hx : 0 ≤ x ∧ x < 8 then
    if hy : 0 ≤ y ∧ y < 8 then
      b ⟨x.toNat, by omega⟩ ⟨y.toNat, by omega⟩
    else Cell.E
  else Cell.E

/-- `is_on_board(x, y)`: `0 <= x <= 7 and 0 <= y <= 7`. -/
def is_on_board (x y : Int) : Bool :=
  decide (0 ≤ x) && decide (x ≤ 7) && (decide (0 ≤ y) && decide (y ≤ 7))

/-- `is_on_corner(x, y)`. -/
def is_on_corner (x y : Int) : Bool :=
  (decide (x = 0) && decide (y = 0)) || (decide (x = 7) && decide (y = 0)) ||
    (decide (x = 0) && decide (y = 7)) || (decide (x = 7) && decide (y = 7))

/-- The 8 compass directions, in the order the source enumerates them. -/
def dirs : List (Int × Int) :=
  [(0, 1), (1, 1), (1, 0), (1, -1), (0, -1), (-1, -1), (-1, 0), (-1, 1)]

/-- `other_tile`: `'O'` if the mover is `'X'`, else `'X'`. -/
def otherTile (tile : Cell) : Cell :=
  if tile = Cell.X then Cell.O else Cell.X

/-- The inner `while self.board[x][y] == other_tile:` loop of
`is_valid_move`: advance by the direction vector while the current
position is on the board and holds the opponent's tile; return the first
position where this fails.  Entered at an on-board position; since the
position moves by a nonzero vector each step it leaves the board after at
most 8 steps, so fuel 16 is never exhausted. -/
def walkOther (b : Board) (other : Cell) (dx dy : Int) :
    Int → Int → Nat → Int × Int
  | x, y, 0 => (x, y)
  | x, y, Nat.succ n =>
    if is_on_board x y && decide (cellAt b x y = other) then
      walkOther b other dx dy (x + dx) (y + dy) n
    else (x, y)

/-- The reverse walk of `is_valid_move` (`while True: x -= dx; …`): step
back from the terminating own-tile position towards the origin, recording
every position strictly between them, in the order visited (so the cell
nearest the terminating tile, i.e. farthest from the origin, comes
first).  The origin is at most 7 steps away, so fuel 16 is never
exhausted. -/
def collectBack (dx dy xs ys : Int) : Int → Int → Nat → List (Int × Int)
  | _, _, 0 => []
  | x, y, Nat.succ n =>
    let x' := x - dx
    let y' := y - dy
    if x' = xs ∧ y' = ys then []
    else (x', y') :: collectBack dx dy xs ys x' y' n

/-- The body of the `for x_direction, y_direction in [...]` loop of
`is_valid_move`, for one direction: the tiles flipped in that direction
by a move of `tile` at `(xs, ys)` on board `b` (which already carries the
temporarily placed tile at `(xs, ys)`). -/
def scanDir (b : Board) (tile other : Cell) (xs ys dx dy : Int) :
    List (Int × Int) :=
  let x1 := xs + dx
  let y1 := ys + dy
  if is_on_board x1 y1 && decide (cellAt b x1 y1 = other) then
    let x2 := x1 + dx
    let y2 := y1 + dy
    if !is_on_board x2 y2 then []
    else
      let p := walkOther b other dx dy x2 y2 16
      if !is_on_board p.1 p.2 then []
      else if cellAt b p.1 p.2 = tile then collectBack dx dy xs ys p.1 p.2 16
      else []
  else []

/-- `Board.is_valid_move(tile, x_start, y_start)`.

Returns `none` when the Python code raises `IndexError` (the unguarded
access `self.board[x_start][y_start]` with an index outside `[-8,7]`);
otherwise `some (r, b')` where `r = none` models the return value
`False`, `r = some flips` models a returned non-empty flip list, and `b'`
is the board after the call (the code temporarily places the tile and
restores the empty cell before returning). -/
def is_valid_move (b : Board) (tile : Cell) (xs ys : Int) :
    Option (Option (List (Int × Int)) × Board) :=
  (pyGet b xs ys).map fun c0 =>
    if c0 ≠ Cell.E ∨ ¬ (is_on_board xs ys = true) then (none, b)
    else
      let other := otherTile tile
      let b1 := setCellI b xs ys tile
      let flips :=
        (dirs.map (fun d => scanDir b1 tile other xs ys d.1 d.2)).flatten
      let b2 := setCellI b1 xs ys Cell.E
      if flips = [] then (none, b2) else (some flips, b2)

/-- `Board.get_valid_moves(tile)`: all `[x, y]` with `0 ≤ x, y ≤ 7` for
which `is_valid_move` is truthy (a non-empty flip list), in x-major
order.  All 64 probed coordinates are in range, so `is_valid_move` never
raises here, and it restores the board, so the board is unchanged. -/
def get_valid_moves (b : Board) (tile : Cell) : List (Int × Int) :=
  ((List.range 8).map Int.ofNat).flatMap (fun x =>
    ((List.range 8).map Int.ofNat).filterMap (fun y =>
      match is_valid_move b tile x y with
      | some (some _, _) => some (x, y)
      | _ => none))

/-- The list of all 64 board positions, x-major, as `get_score` scans them. -/
def allCells : List (Fin 8 × Fin 8) :=
  (List.finRange 8).flatMap (fun x => (List.finRange 8).map (fun y => (x, y)))

/-- `Board.get_score()`: the pair (number of `'X'` cells, number of `'O'`
cells), the dictionary `{'X': x_score, 'O': o_score}`. -/
def get_score (b : Board) : Nat × Nat :=
  ((allCells.filter (fun p => b p.1 p.2 = Cell.X)).length,
   (allCells.filter (fun p => b p.1 p.2 = Cell.O)).length)

/-- `Board.make_move(tile, x_start, y_start)`: validate, and if valid
place the tile and flip the captured pieces.  `none` models a raised
`IndexError`, `some (false, b')` the return value `False`, and
`some (true, b')` a performed move. -/
def make_move (b : Board) (tile : Cell) (xs ys : Int) :
    Option (Bool × Board) :=
  match is_valid_move b tile xs ys with
  | none => none
  | some (none, b') => some (false, b')
  | some (some flips, b') =>
    let b1 := setCellI b' xs ys tile
    some (true, flips.foldl (fun bb p => setCellI bb p.1 p.2 tile) b1)

/-- The all-blank board. -/
def blankBoard : Board := fun _ _ => Cell.E

/-- `Board.reset()`: blank board plus the four starting pieces
`board[3][3]='X'`, `board[3][4]='O'`, `board[4][3]='O'`, `board[4][4]='X'`. -/
def resetBoard : Board :=
  setCell (setCell (setCell (setCell blankBoard 3 3 Cell.X) 3 4 Cell.O)
    4 3 Cell.O) 4 4 Cell.X

/-- `Board.list_to_array()`: the 8×8 numeric state with
`state[i, j] = 1` iff `board[j][i] = 'X'`, `-1` iff `'O'`, else `0`. -/
def list_to_array (b : Board) : Fin 8 → Fin 8 → Int := fun i j =>
  if b j i = Cell.X then 1 else if b j i = Cell.O then -1 else 0

/-- `Board.array_to_list(state)`: rebuild the cell board from the numeric
state, `board[j][i] = 'X'` iff `state[i, j] = 1`, `'O'` iff `-1`, else
`' '`. -/
def array_to_list (st : Fin 8 → Fin 8 → Int) : Board := fun j i =>
  if st i j = 1 then Cell.X else if st i j = -1 then Cell.O else Cell.E

/-- The mutable state of an `OthelloGame` instance (the fields that the
environment methods read or write; the `interactive` / `stepper` /
`show_hints` flags only control printing and are omitted). -/
structure GameState where
  board : Board
  player_tile : Cell
  computer_tile : Cell
  player_score : Int
  computer_score : Int
deriving DecidableEq

/-- `OthelloGame.__init__` (state fields). -/
def gameInit : GameState :=
  { board := resetBoard
    player_tile := Cell.X
    computer_tile := Cell.O
    player_score := 0
    computer_score := 0 }

/-- `OthelloGame.reset()`. -/
def gameReset (s : GameState) : GameState :=
  { s with board := resetBoard, player_score := 0, computer_score := 0 }

/-- `OthelloGame.step(action)`.  Returns `none` when the underlying board
access raises, else `some ((reward, returned_board, terminal), s')` where
`s'` is the instance state after the call.

Source shape: `next_board = self.board.copy()`; if
`self.board.is_valid_move(...)` is falsy, return `(-10, self.board,
False)`; otherwise `next_board.make_move(...)`; `terminal` iff neither
`player_tile` nor `computer_tile` has a valid move on `next_board`; on
terminal the reward compares the instance fields `self.player_score` and
`self.computer_score`; finally `self.board = next_board.copy()`. -/
def step (s : GameState) (ax ay : Int) :
    Option ((Int × Board × Bool) × GameState) :=
  match is_valid_move s.board s.player_tile ax ay with
  | none => none
  | some (none, bChk) => some ((-10, bChk, false), { s with board := bChk })
  | some (some _, _) =>
    match make_move s.board s.player_tile ax ay with
    | none => none
    | some (_, nb) =>
      let terminal :=
        (get_valid_moves nb s.player_tile).isEmpty &&
          (get_valid_moves nb s.computer_tile).isEmpty
      let reward : Int :=
        if terminal then
          if s.player_score > s.computer_score then 1
          else if s.player_score < s.computer_score then -1
          else 0
        else 0
      some ((reward, nb, terminal), { s with board := nb })

/-- Taxicab distance of `(x, y)` from `(xs, ys)`; along a single compass
direction it measures how many steps from the origin cell a flipped cell
lies. -/
def distFrom (xs ys x y : Int) : Nat :=
  (x - xs).natAbs + (y - ys).natAbs

/-- The boards reachable from `Board.reset()` by any sequence of
`make_move` calls (with any tile and any coordinates that do not raise). -/
inductive ReachableBoard : Board → Prop where
  | start : ReachableBoard resetBoard
  | move : ∀ (b : Board) (tile : Cell) (xs ys : Int) (res : Bool) (b' : Board),
      ReachableBoard b → make_move b tile xs ys = some (res, b') →
      ReachableBoard b'

/-- A board on which `'X'` moving at `(0,0)` ends the game: column 0
holds `O` at `(1,0)` and `X` at `(2,0)`, everything else empty. -/
def bBug : Board := setCell (setCell blankBoard 1 0 Cell.O) 2 0 Cell.X

/-- An environment state as produced by `reset()` (both score fields 0)
whose board is `bBug`. -/
def sBug : GameState :=
  { board := bBug
    player_tile := Cell.X
    computer_tile := Cell.O
    player_score := 0
    computer_score := 0 }

/-- A board where the move `'X'` at `(0,0)` flips two cells in one
direction: `O` at `(1,0)` and `(2,0)`, `X` at `(3,0)`, rest empty. -/
def bNine : Board :=
  setCell (setCell (setCell blankBoard 1 0 Cell.O) 2 0 Cell.O) 3 0 Cell.X

/-- The board after `'X'` plays `(2,4)` on the starting board: the tile
is placed at `(2,4)` and the single captured cell `(3,4)` is flipped
(written in the exact shape `step` computes it: temporary placement,
restore, placement by `make_move`, then the flip). -/
def boardAfter24 : Board :=
  setCellI
    (setCellI (setCellI (setCellI resetBoard 2 4 Cell.X) 2 4 Cell.E)
      2 4 Cell.X)
    3 4 Cell.X

/-- The environment state after `step((2,4))` from the initial state. -/
def sAfter24 : GameState :=
  { board := boardAfter24
    player_tile := Cell.X
    computer_tile := Cell.O
    player_score := 0
    computer_score := 0 }

/-- Claim C1 (divergence witness): on the environment state `sBug` (score
fields 0, exactly as `reset()` leaves them and as every `step` call keeps
them), the legal move `(0,0)` of the tracked side `'X'` transitions to
Terminal with a final board score of 3 for `'X'` against 0 for `'O'`, yet
`step` returns reward 0, not +1: the terminal reward compares the stale
instance fields `player_score`/`computer_score` instead of the final
board score. -/
theorem C1_terminal_reward_stale :
    (step sBug 0 0).map (fun r => (r.1.1, r.1.2.2)) = some (0, true) ∧
      (step sBug 0 0).map (fun r => get_score r.1.2.1) = some (3, 0) ∧
      3 > 0 := by
  decide

/-- One cell survives the numeric export/import round trip. -/
lemma cell_roundtrip (c : Cell) :
    (if (if c = Cell.X then (1 : Int) else if c = Cell.O then -1 else 0) = 1
      then Cell.X
      else
        if (if c = Cell.X then (1 : Int) else if c = Cell.O then -1 else 0) = -1
        then Cell.O
        else Cell.E) = c := by
  cases c <;> rfl

/-- Claim C5: exporting any board to the numeric 8×8 matrix
(`list_to_array`, Black = +1, White = −1, Empty = 0) and importing it
back (`array_to_list`) returns the original board cell for cell. -/
theorem C5_matrix_roundtrip :
    ∀ b : Board, array_to_list (list_to_array b) = b := by
  intro b
  funext j i
  simp only [array_to_list, list_to_array]
  exact cell_roundtrip (b j i)

/-- Claim C6 (counterexample): on the initial board, `(2,3)` — an element
of the claimed legal-move set for Black — is not a legal move, while
`(2,4)` — not in the claimed set — is legal, so the legal-move set is not
`{(2,3),(3,2),(4,5),(5,4)}`. -/
theorem C6_counterexample :
    ((2 : Int), (3 : Int)) ∉ get_valid_moves resetBoard Cell.X ∧
      ((2 : Int), (4 : Int)) ∈ get_valid_moves resetBoard Cell.X := by
  decide

/-- Claim C6 (amended): on the initial board produced by `reset()`
(`(3,3)=Black`, `(3,4)=White`, `(4,3)=White`, `(4,4)=Black`), the legal
moves for Black are exactly `{(2,4),(3,5),(4,2),(5,3)}` (returned in
x-major order). -/
theorem C6_initial_legal_moves :
    get_valid_moves resetBoard Cell.X = [(2, 4), (3, 5), (4, 2), (5, 3)] := by
  decide

/-- Claim C7 (divergence witness): evaluating a move at the out-of-range
coordinate `(8,0)` raises `IndexError` (modelled by `none`) instead of
returning `False`: the unguarded access `self.board[x_start][y_start]`
precedes the `is_on_board` range check. -/
theorem C7_out_of_range_raises :
    is_valid_move resetBoard Cell.X 8 0 = none := by
  decide

/-- Claim C9 (counterexample): for `'X'` moving at `(0,0)` on `bNine` the
single-direction flip list is `[(2,0),(1,0)]`, which is not ordered
nearest-to-the-origin-first: the cell nearest the origin, `(1,0)`, comes
last, not first. -/
theorem C9_counterexample :
    (is_valid_move bNine Cell.X 0 0).map (fun r => r.1) =
        some (some [(2, 0), (1, 0)]) ∧
      ¬ distFrom 0 0 2 0 ≤ distFrom 0 0 1 0 := by
  decide

/-- `pyIdx` on an in-range index is plain. -/
lemma pyIdx_of_range (i : Int) (h0 : 0 ≤ i) (h8 : i < 8) :
    pyIdx i = some ⟨i.toNat, by omega⟩ := by
  unfold pyIdx
  rw [dif_pos ⟨h0, h8⟩]

/-- `pyGet` on in-range coordinates reads the cell. -/
lemma pyGet_of_range (b : Board) (x y : Int)
    (hx0 : 0 ≤ x) (hx8 : x < 8) (hy0 : 0 ≤ y) (hy8 : y < 8) :
    pyGet b x y = some (b ⟨x.toNat, by omega⟩ ⟨y.toNat, by omega⟩) := by
  unfold pyGet
  rw [pyIdx_of_range x hx0 hx8, pyIdx_of_range y hy0 hy8]
  rfl

/-- Unfolding of the boolean range check. -/
lemma is_on_board_iff (x y : Int) :
    is_on_board x y = true ↔ (0 ≤ x ∧ x ≤ 7) ∧ (0 ≤ y ∧ y ≤ 7) := by
  simp [is_on_board, and_assoc]

/-- Overwriting a cell twice and ending on its original value restores
the board. -/
lemma setCell_setCell_cancel (b : Board) (i j : Fin 8) (c d : Cell)
    (h : b i j = d) : setCell (setCell b i j c) i j d = b := by
  funext i' j'
  simp only [setCell]
  split
  · next hij =>
    obtain ⟨hi, hj⟩ := hij
    subst hi
    subst hj
    exact h.symm
  · rfl

/-- `setCellI` on in-range coordinates is a plain `setCell`. -/
lemma setCellI_of_range (b : Board) (x y : Int) (c : Cell)
    (hx0 : 0 ≤ x) (hx8 : x < 8) (hy0 : 0 ≤ y) (hy8 : y < 8) :
    setCellI b x y c =
      setCell b ⟨x.toNat, by omega⟩ ⟨y.toNat, by omega⟩ c := by
  unfold setCellI
  rw [dif_pos ⟨hx0, hx8⟩, dif_pos ⟨hy0, hy8⟩]

/-- `is_valid_move` always hands back the board it was given: it either
returns before touching it or restores the temporarily placed tile. -/
lemma is_valid_move_board_eq (b : Board) (tile : Cell) (xs ys : Int)
    (r : Option (List (Int × Int))) (b' : Board)
    (h : is_valid_move b tile xs ys = some (r, b')) : b' = b := by
  unfold is_valid_move at h
  obtain ⟨c0, hg, hbody⟩ := Option.map_eq_some'.mp h
  by_cases hc : c0 ≠ Cell.E ∨ ¬ (is_on_board xs ys = true)
  · rw [if_pos hc] at hbody
    exact (congrArg Prod.snd hbody).symm
  · rw [if_neg hc] at hbody
    push_neg at hc
    obtain ⟨hcE, hob⟩ := hc
    obtain ⟨⟨hx0, hx7⟩, hy0, hy7⟩ := (is_on_board_iff xs ys).mp hob
    rw [pyGet_of_range b xs ys hx0 (by omega) hy0 (by omega)] at hg
    have hcell : b ⟨xs.toNat, by omega⟩ ⟨ys.toNat, by omega⟩ = Cell.E :=
      hcE ▸ Option.some.inj hg
    have hrestore :
        setCellI (setCellI b xs ys tile) xs ys Cell.E = b := by
      rw [setCellI_of_range b xs ys tile hx0 (by omega) hy0 (by omega),
        setCellI_of_range _ xs ys Cell.E hx0 (by omega) hy0 (by omega)]
      exact setCell_setCell_cancel b _ _ tile Cell.E hcell
    have hbody2 :
        (if ((dirs.map (fun d =>
            scanDir (setCellI b xs ys tile) tile (otherTile tile) xs ys
              d.1 d.2)).flatten = []) then
          ((none : Option (List (Int × Int))),
            setCellI (setCellI b xs ys tile) xs ys Cell.E)
        else
          (some ((dirs.map (fun d =>
            scanDir (setCellI b xs ys tile) tile (otherTile tile) xs ys
              d.1 d.2)).flatten),
            setCellI (setCellI b xs ys tile) xs ys Cell.E)) = (r, b') :=
      hbody
    split at hbody2
    · exact ((congrArg Prod.snd hbody2).symm.trans hrestore)
    · exact ((congrArg Prod.snd hbody2).symm.trans hrestore)

/-- Claim C2: an action that fails validation (`is_valid_move` returns
`False`) makes `step` return the fixed penalty reward −10 together with
the unchanged board and an unset terminal flag, and leaves the whole
environment state (board, tiles, scores) exactly as it was. -/
theorem C2_invalid_move_penalty (s : GameState) (ax ay : Int)
    (h : (is_valid_move s.board s.player_tile ax ay).map (fun r => r.1) =
      some none) :
    step s ax ay = some ((-10, s.board, false), s) := by
  obtain ⟨⟨r1, b1⟩, hm, hpr⟩ := Option.map_eq_some'.mp h
  dsimp only at hpr
  subst hpr
  have hb : b1 = s.board := is_valid_move_board_eq _ _ _ _ _ _ hm
  subst hb
  unfold step
  rw [hm]

/-- Claim C2 witness: from the freshly initialized environment the empty
corner `(0,0)` is not a legal `'X'` move, and `step((0,0))` returns
`(-10, unchanged board, False)` and changes nothing. -/
theorem C2_witness :
    step gameInit 0 0 = some ((-10, gameInit.board, false), gameInit) :=
  C2_invalid_move_penalty gameInit 0 0 (by decide)

/-- Claim C4: evaluating a move at any in-range coordinate — legal or
not — leaves the board cell-for-cell as it was: the board returned by
`is_valid_move` is the input board (the temporarily placed tile is
restored before returning). -/
theorem C4_no_mutation (b : Board) (tile : Cell) (x y : Int)
    (hx0 : 0 ≤ x) (hx7 : x ≤ 7) (hy0 : 0 ≤ y) (hy7 : y ≤ 7) :
    (is_valid_move b tile x y).map Prod.snd = some b := by
  have hg := pyGet_of_range b x y hx0 (by omega) hy0 (by omega)
  cases hv : is_valid_move b tile x y with
  | none =>
    exfalso
    unfold is_valid_move at hv
    rw [hg] at hv
    simp at hv
  | some p =>
    obtain ⟨r, b'⟩ := p
    exact congrArg some (is_valid_move_board_eq b tile x y r b' hv)

/-- Claim C4 witness: the legal `'X'` move `(2,4)` on the starting board
leaves the board untouched by evaluation. -/
theorem C4_witness :
    (is_valid_move resetBoard Cell.X 2 4).map Prod.snd = some resetBoard :=
  C4_no_mutation resetBoard Cell.X 2 4 (by decide) (by decide) (by decide)
    (by decide)

/-- Claim C3: when a legal action is applied through `step`, the board
`step` returns is the post-move board produced by `make_move`, and the
returned terminal flag is true exactly when neither color (`'X'` nor
`'O'`) has a legal move on that post-move board. -/
theorem C3_terminal_iff (s : GameState) (ax ay : Int) (fl : List (Int × Int))
    (hcol : s.player_tile = Cell.X ∧ s.computer_tile = Cell.O ∨
      s.player_tile = Cell.O ∧ s.computer_tile = Cell.X)
    (hv : (is_valid_move s.board s.player_tile ax ay).map (fun r => r.1) =
      some (some fl)) :
    (step s ax ay).map (fun r => r.1.2.1) =
        (make_move s.board s.player_tile ax ay).map (fun r => r.2) ∧
      ((step s ax ay).map (fun r => r.1.2.2) = some true ↔
        (make_move s.board s.player_tile ax ay).map
          (fun r => (get_valid_moves r.2 Cell.X, get_valid_moves r.2 Cell.O)) =
          some ([], [])) := by
  obtain ⟨⟨r1, b0⟩, hm, hpr⟩ := Option.map_eq_some'.mp hv
  dsimp only at hpr
  subst hpr
  unfold step make_move
  rw [hm]
  constructor
  · rfl
  · simp only [Option.map_some', Option.some.injEq, Prod.mk.injEq,
      Bool.and_eq_true, List.isEmpty_iff]
    rcases hcol with ⟨hp, hc⟩ | ⟨hp, hc⟩
    · rw [hp, hc]
    · rw [hp, hc]
      exact and_comm

/-- Claim C3 witness: applying the legal `'X'` move `(2,4)` from the
initial state, the returned board is the `make_move` board and the
terminal flag (false) agrees with both colors still having legal moves. -/
theorem C3_witness :
    (step gameInit 2 4).map (fun r => r.1.2.1) =
        (make_move gameInit.board gameInit.player_tile 2 4).map
          (fun r => r.2) ∧
      ((step gameInit 2 4).map (fun r => r.1.2.2) = some true ↔
        (make_move gameInit.board gameInit.player_tile 2 4).map
          (fun r => (get_valid_moves r.2 Cell.X, get_valid_moves r.2 Cell.O)) =
          some ([], [])) :=
  C3_terminal_iff gameInit 2 4 [(3, 4)] (Or.inl ⟨rfl, rfl⟩) (by decide)

/-- Claim C10: every `step` call acts only with the tracked player's
tile: it never changes `player_tile` or `computer_tile`, and the state's
new board is either the unchanged old board (illegal action) or exactly
the result of one `make_move` of `player_tile` at the submitted action —
no opponent move happens inside `step`. -/
theorem C10_only_player_acts (s : GameState) (ax ay : Int)
    (out : (Int × Board × Bool) × GameState)
    (hstep : step s ax ay = some out) :
    out.2.player_tile = s.player_tile ∧
      out.2.computer_tile = s.computer_tile ∧
      (out.2.board = s.board ∨
        (make_move s.board s.player_tile ax ay).map (fun r => r.2) =
          some out.2.board) := by
  unfold step at hstep
  cases hval : is_valid_move s.board s.player_tile ax ay with
  | none =>
    rw [hval] at hstep
    exact absurd hstep (by simp)
  | some p =>
    obtain ⟨r1, b1⟩ := p
    rw [hval] at hstep
    cases r1 with
    | none =>
      have hout : ((-10 : Int), b1, false) = out.1 ∧
          ({ s with board := b1 } : GameState) = out.2 :=
        Prod.mk.inj (Option.some.inj hstep)
      obtain ⟨-, h2⟩ := hout
      rw [← h2]
      refine ⟨rfl, rfl, Or.inl ?_⟩
      exact is_valid_move_board_eq s.board s.player_tile ax ay none b1 hval
    | some fl =>
      unfold make_move at hstep ⊢
      rw [hval] at hstep ⊢
      have hout := Option.some.inj hstep
      rw [← hout]
      exact ⟨rfl, rfl, Or.inr rfl⟩

/-- Claim C10 witness: the legal `'X'` move `(2,4)` from the initial
state keeps the tracked tiles and its new board is the `make_move`
result. -/
theorem C10_witness :
    sAfter24.player_tile = gameInit.player_tile ∧
      sAfter24.computer_tile = gameInit.computer_tile ∧
      (sAfter24.board = gameInit.board ∨
        (make_move gameInit.board gameInit.player_tile 2 4).map
          (fun r => r.2) = some sAfter24.board) :=
  C10_only_player_acts gameInit 2 4 ((0, boardAfter24, false), sAfter24) rfl

/-- Every position of a list contributes to exactly one of the three
per-cell filters: the three filtered lengths add up to the list length. -/
lemma filter_cell_partition (b : Board) (l : List (Fin 8 × Fin 8)) :
    (l.filter (fun p => b p.1 p.2 = Cell.X)).length +
        (l.filter (fun p => b p.1 p.2 = Cell.O)).length +
        (l.filter (fun p => b p.1 p.2 = Cell.E)).length = l.length := by
  induction l with
  | nil => rfl
  | cons p l ih =>
    simp only [List.filter_cons, List.length_cons]
    cases hc : b p.1 p.2 <;> simp [hc] <;> omega

/-- Claim C8: on every board reachable from `reset()` by `make_move`
calls, each of the 64 cells holds exactly one of empty/Black/White, so
the Black count, White count and Empty count always sum to 64. -/
theorem C8_cell_count_invariant (b : Board) (_h : ReachableBoard b) :
    (get_score b).1 + (get_score b).2 +
      (allCells.filter (fun p => b p.1 p.2 = Cell.E)).length = 64 := by
  have hlen : allCells.length = 64 := by decide
  have := filter_cell_partition b allCells
  unfold get_score
  omega

/-- Claim C8 witness: the starting board is reachable and its counts
(2 Black, 2 White, 60 Empty) sum to 64. -/
theorem C8_witness :
    (get_score resetBoard).1 + (get_score resetBoard).2 +
      (allCells.filter (fun p => resetBoard p.1 p.2 = Cell.E)).length = 64 :=
  C8_cell_count_invariant resetBoard ReachableBoard.start

/-- The outward walk stays on the ray: started at the `m`-th step from
`(x0, y0)` along `(dx, dy)`, it stops at some `m'`-th step with
`m ≤ m'`. -/
lemma walkOther_align (b : Board) (other : Cell) (dx dy x0 y0 : Int) :
    ∀ (fuel : Nat) (x y : Int) (m : Nat),
      x = x0 + m * dx → y = y0 + m * dy →
      ∃ m' : Nat, m ≤ m' ∧
        walkOther b other dx dy x y fuel =
          (x0 + m' * dx, y0 + m' * dy) := by
  intro fuel
  induction fuel with
  | zero =>
    intro x y m hx hy
    exact ⟨m, le_refl m, by rw [hx, hy]; rfl⟩
  | succ n ih =>
    intro x y m hx hy
    simp only [walkOther]
    split
    · obtain ⟨m', hm', heq⟩ := ih (x + dx) (y + dy) (m + 1)
        (by rw [hx]; push_cast; ring) (by rw [hy]; push_cast; ring)
      exact ⟨m', by omega, heq⟩
    · exact ⟨m, le_refl m, by rw [hx, hy]⟩

/-- Distance from the origin of the `k`-th point on the ray. -/
lemma distFrom_ray (x0 y0 dx dy : Int) (k : Nat) :
    distFrom x0 y0 (x0 + k * dx) (y0 + k * dy) =
      k * (dx.natAbs + dy.natAbs) := by
  unfold distFrom
  rw [add_sub_cancel_left, add_sub_cancel_left, Int.natAbs_mul,
    Int.natAbs_mul, Int.natAbs_ofNat, Nat.mul_add]

/-- The reverse walk of `is_valid_move`, entered at the `m`-th point of
the ray from `(x0, y0)` along a nonzero direction `(dx, dy)`, yields
positions strictly closer than `m` steps, in strictly decreasing
distance from the origin — i.e. farthest first. -/
lemma collectBack_bound_pairwise (dx dy x0 y0 : Int)
    (hd : ¬ (dx = 0 ∧ dy = 0)) :
    ∀ (fuel : Nat) (x y : Int) (m : Nat), 1 ≤ m →
      x = x0 + m * dx → y = y0 + m * dy →
      (∀ q ∈ collectBack dx dy x0 y0 x y fuel,
        distFrom x0 y0 q.1 q.2 < m * (dx.natAbs + dy.natAbs)) ∧
      List.Pairwise
        (fun p q => distFrom x0 y0 q.1 q.2 < distFrom x0 y0 p.1 p.2)
        (collectBack dx dy x0 y0 x y fuel) := by
  have hs : 1 ≤ dx.natAbs + dy.natAbs := by
    rcases not_and_or.mp hd with h | h
    · have := Int.natAbs_pos.mpr h
      omega
    · have := Int.natAbs_pos.mpr h
      omega
  intro fuel
  induction fuel with
  | zero =>
    intro x y m hm hx hy
    constructor
    · intro q hq
      simp [collectBack] at hq
    · simp [collectBack]
  | succ n ih =>
    intro x y m hm hx hy
    by_cases hm1 : m = 1
    · subst hm1
      have hstop : x - dx = x0 ∧ y - dy = y0 := by
        constructor
        · rw [hx]; push_cast; ring
        · rw [hy]; push_cast; ring
      simp only [collectBack]
      rw [if_pos hstop]
      exact ⟨by intro q hq; simp at hq, List.Pairwise.nil⟩
    · have hm2 : 2 ≤ m := by omega
      have hmi : (2 : Int) ≤ (m : Int) := by exact_mod_cast hm2
      have hne : ¬ (x - dx = x0 ∧ y - dy = y0) := by
        rintro ⟨h1, h2⟩
        rw [hx] at h1
        rw [hy] at h2
        apply hd
        constructor
        · have h1' : ((m : Int) - 1) * dx = 0 := by linear_combination h1
          rcases mul_eq_zero.mp h1' with hm0 | hdx0
          · exfalso; omega
          · exact hdx0
        · have h2' : ((m : Int) - 1) * dy = 0 := by linear_combination h2
          rcases mul_eq_zero.mp h2' with hm0 | hdy0
          · exfalso; omega
          · exact hdy0
      have hxm : x - dx = x0 + ((m - 1 : Nat) : Int) * dx := by
        rw [hx, Nat.cast_sub (by omega : 1 ≤ m)]
        push_cast
        ring
      have hym : y - dy = y0 + ((m - 1 : Nat) : Int) * dy := by
        rw [hy, Nat.cast_sub (by omega : 1 ≤ m)]
        push_cast
        ring
      obtain ⟨ihb, ihp⟩ := ih (x - dx) (y - dy) (m - 1) (by omega) hxm hym
      have hhead : distFrom x0 y0 (x - dx) (y - dy) =
          (m - 1) * (dx.natAbs + dy.natAbs) := by
        rw [hxm, hym]
        exact distFrom_ray x0 y0 dx dy (m - 1)
      have hmul : m * (dx.natAbs + dy.natAbs) =
          (m - 1) * (dx.natAbs + dy.natAbs) + (dx.natAbs + dy.natAbs) := by
        have h1 : m - 1 + 1 = m := by omega
        calc m * (dx.natAbs + dy.natAbs)
            = (m - 1 + 1) * (dx.natAbs + dy.natAbs) := by rw [h1]
          _ = (m - 1) * (dx.natAbs + dy.natAbs) + (dx.natAbs + dy.natAbs) := by
              rw [Nat.succ_mul]
      simp only [collectBack]
      rw [if_neg hne]
      constructor
      · intro q hq
        rcases List.mem_cons.mp hq with hq1 | hq2
        · rw [hq1]
          rw [hhead]
          omega
        · have := ihb q hq2
          omega
      · rw [List.pairwise_cons]
        constructor
        · intro q hq
          have := ihb q hq
          rw [hhead]
          omega
        · exact ihp

/-- In any single direction `(dx, dy)` (nonzero), the flip list produced
by the directional scan is ordered by strictly decreasing distance from
the origin cell: farthest first, nearest last. -/
lemma scanDir_pairwise (b : Board) (tile other : Cell) (x0 y0 dx dy : Int)
    (hd : ¬ (dx = 0 ∧ dy = 0)) :
    List.Pairwise
      (fun p q => distFrom x0 y0 q.1 q.2 < distFrom x0 y0 p.1 p.2)
      (scanDir b tile other x0 y0 dx dy) := by
  unfold scanDir
  dsimp only
  split
  · split
    · exact List.Pairwise.nil
    · obtain ⟨m', hm', heq⟩ := walkOther_align b other dx dy x0 y0 16
        (x0 + dx + dx) (y0 + dy + dy) 2 (by push_cast; ring)
        (by push_cast; ring)
      rw [heq]
      split
      · exact List.Pairwise.nil
      · split
        · exact (collectBack_bound_pairwise dx dy x0 y0 hd 16
            (x0 + (m' : Int) * dx) (y0 + (m' : Int) * dy) m' (by omega)
            rfl rfl).2
        · exact List.Pairwise.nil
  · exact List.Pairwise.nil

/-- Claim C9 (amended): the flip list returned by `is_valid_move` is the
concatenation, over the 8 compass directions in their enumerated order
0..7, of the per-direction flip lists, and within each (nonzero)
direction the captured cells are listed by strictly decreasing distance
from the origin cell — the cell nearest the origin comes last, not
first. -/
theorem C9_flip_order (b : Board) (tile : Cell) (x y dx dy : Int)
    (flips : List (Int × Int)) (b' : Board)
    (hd : ¬ (dx = 0 ∧ dy = 0))
    (h : is_valid_move b tile x y = some (some flips, b')) :
    flips = (dirs.map (fun d =>
        scanDir (setCellI b x y tile) tile (otherTile tile) x y
          d.1 d.2)).flatten ∧
      List.Pairwise
        (fun p q => distFrom x y q.1 q.2 < distFrom x y p.1 p.2)
        (scanDir (setCellI b x y tile) tile (otherTile tile) x y dx dy) := by
  refine ⟨?_, scanDir_pairwise _ _ _ _ _ _ _ hd⟩
  obtain ⟨c0, hg, hbody⟩ := Option.map_eq_some'.mp h
  by_cases hc : c0 ≠ Cell.E ∨ ¬ (is_on_board x y = true)
  · rw [if_pos hc] at hbody
    exact absurd (congrArg Prod.fst hbody) (by simp)
  · rw [if_neg hc] at hbody
    have hbody2 :
        (if ((dirs.map (fun d =>
            scanDir (setCellI b x y tile) tile (otherTile tile) x y
              d.1 d.2)).flatten = []) then
          ((none : Option (List (Int × Int))),
            setCellI (setCellI b x y tile) x y Cell.E)
        else
          (some ((dirs.map (fun d =>
            scanDir (setCellI b x y tile) tile (otherTile tile) x y
              d.1 d.2)).flatten),
            setCellI (setCellI b x y tile) x y Cell.E)) = (some flips, b') :=
      hbody
    split at hbody2
    · exact absurd (congrArg Prod.fst hbody2) (by simp)
    · exact (Option.some.inj (congrArg Prod.fst hbody2)).symm

/-- Claim C9 (amended) witness: for `'X'` at `(0,0)` on `bNine` the flip
list `[(2,0),(1,0)]` is the concatenation of the 8 directional scans and
the east scan is ordered farthest-from-origin first. -/
theorem C9_flip_order_witness :
    [((2 : Int), (0 : Int)), ((1 : Int), (0 : Int))] =
        (dirs.map (fun d =>
          scanDir (setCellI bNine 0 0 Cell.X) Cell.X (otherTile Cell.X) 0 0
            d.1 d.2)).flatten ∧
      List.Pairwise
        (fun p q => distFrom 0 0 q.1 q.2 < distFrom 0 0 p.1 p.2)
        (scanDir (setCellI bNine 0 0 Cell.X) Cell.X (otherTile Cell.X) 0 0
          1 0) :=
  C9_flip_order bNine Cell.X 0 0 1 0 [(2, 0), (1, 0)]
    (setCellI (setCellI bNine 0 0 Cell.X) 0 0 Cell.E) (by decide) (by decide)
